import Mathlib

/-!
# Verification of the `built-type` runtime validation engine

A shallow embedding of the constraint / schema-node / composite-parser engine
of the `@azlabsjs/built-type` library, together with theorems settling the
specification claims about it.

JavaScript values are modelled by the first-order inductive `JSValue`.
The model carries no function values, so the structural duck-typing branches
of the source (`typeof value.clear === 'function'` …) are represented by
member lookups that can never produce a function; this is the only class of
JavaScript values the embedding cannot represent.  JavaScript exceptions
(`TypeError` raised by property access on `null`, by `Symbol(symbol)`, …)
are modelled with `Except`.
-/

namespace BuiltType

/-- JavaScript numbers restricted to the values the engine's claims exercise:
integers plus the distinguished `NaN`. -/
inductive JSNum : Type where
  | int (i : Int)
  | nan
  deriving DecidableEq, Repr

/-- First-order model of the JavaScript values flowing through the engine:
primitives, dates, arrays, plain objects (insertion-ordered property lists),
`Map`s and `Set`s.  Symbols are identified by their description string; no
theorem below relies on symbol identity. -/
inductive JSValue : Type where
  | vUndefined
  | vNull
  | vBool (b : Bool)
  | vNum (n : JSNum)
  | vStr (s : String)
  | vSym (desc : String)
  | vDate (t : Int)
  | vArr (items : List JSValue)
  | vObj (props : List (String × JSValue))
  | vMap (entries : List (JSValue × JSValue))
  | vSet (items : List JSValue)

open JSValue

mutual

/-- Structural Boolean equality on `JSValue`, standing in for JavaScript's
`SameValueZero` comparison used by `Map` keys and `Set` membership. -/
def JSValue.beq : JSValue → JSValue → Bool
  | vUndefined, vUndefined => true
  | vNull, vNull => true
  | vBool a, vBool b => a == b
  | vNum a, vNum b => a == b
  | vStr a, vStr b => a == b
  | vSym a, vSym b => a == b
  | vDate a, vDate b => a == b
  | vArr a, vArr b => JSValue.beqItems a b
  | vObj a, vObj b => JSValue.beqProps a b
  | vMap a, vMap b => JSValue.beqEntries a b
  | vSet a, vSet b => JSValue.beqItems a b
  | _, _ => false

/-- Elementwise `JSValue.beq` on lists. -/
def JSValue.beqItems : List JSValue → List JSValue → Bool
  | [], [] => true
  | x :: xs, y :: ys => JSValue.beq x y && JSValue.beqItems xs ys
  | _, _ => false

/-- Elementwise `JSValue.beq` on property lists. -/
def JSValue.beqProps : List (String × JSValue) → List (String × JSValue) → Bool
  | [], [] => true
  | (k, x) :: xs, (k', y) :: ys =>
    k == k' && JSValue.beq x y && JSValue.beqProps xs ys
  | _, _ => false

/-- Elementwise `JSValue.beq` on entry lists. -/
def JSValue.beqEntries :
    List (JSValue × JSValue) → List (JSValue × JSValue) → Bool
  | [], [] => true
  | (k, x) :: xs, (k', y) :: ys =>
    JSValue.beq k k' && JSValue.beq x y && JSValue.beqEntries xs ys
  | _, _ => false

end

instance : BEq JSValue := ⟨JSValue.beq⟩

/-- JavaScript exceptions that the embedded engine can raise, plus the
structured `ParseError` thrown by the outer `parse` entry point. -/
inductive JSErr : Type where
  | typeError (msg : String)
  | parseError (errors : JSValue) (msg : Option String)

/-- The `typeof` operator. -/
def typeofJS : JSValue → String
  | vUndefined => "undefined"
  | vNull => "object"
  | vBool _ => "boolean"
  | vNum _ => "number"
  | vStr _ => "string"
  | vSym _ => "symbol"
  | vDate _ => "object"
  | vArr _ => "object"
  | vObj _ => "object"
  | vMap _ => "object"
  | vSet _ => "object"

/-- JavaScript truthiness. -/
def jsTruthy : JSValue → Bool
  | vUndefined => false
  | vNull => false
  | vBool b => b
  | vNum (.int i) => i != 0
  | vNum .nan => false
  | vStr s => s ≠ ""
  | _ => true

/-- Shared update-or-append semantics of JavaScript `Map.prototype.set` and of
plain-object property assignment: an existing key keeps its position and gets
the new value, a new key is appended. -/
def mapSet {α β : Type} [BEq α] (l : List (α × β)) (k : α) (x : β) :
    List (α × β) :=
  if l.any (fun p => p.1 == k) then
    l.map (fun p => if p.1 == k then (k, x) else p)
  else l ++ [(k, x)]

/-- Association-list lookup (JavaScript property read on a plain object). -/
def alistLookup {β : Type} (l : List (String × β)) (k : String) : Option β :=
  match l with
  | [] => none
  | (k', v) :: rest => if k' == k then some v else alistLookup rest k

/-! Character-list implementations of the JavaScript string operations the
engine uses (`startsWith`, `endsWith`, `trim`, dotted-path splitting,
numeric index parsing), chosen so that every computation reduces inside the
kernel. -/

def listIsPrefixOf {α : Type} [BEq α] : List α → List α → Bool
  | [], _ => true
  | _ :: _, [] => false
  | a :: as, b :: bs => a == b && listIsPrefixOf as bs

/-- `String.prototype.startsWith`. -/
def jsStartsWith (s needle : String) : Bool :=
  listIsPrefixOf needle.toList s.toList

/-- `String.prototype.endsWith`. -/
def jsEndsWith (s needle : String) : Bool :=
  listIsPrefixOf needle.toList.reverse s.toList.reverse

def isWhitespaceChar (c : Char) : Bool :=
  c == ' ' || c == '\t' || c == '\n' || c == '\r'

/-- `String.prototype.trim` (over the common whitespace characters). -/
def jsTrim (s : String) : String :=
  String.mk
    (((s.toList.dropWhile isWhitespaceChar).reverse.dropWhile
      isWhitespaceChar).reverse)

/-- Split on `.` (the dotted-path separator of the property-lookup
capability). -/
def splitPath (s : String) : List String :=
  (s.toList.foldr
    (fun c acc =>
      if c == '.' then [] :: acc
      else
        match acc with
        | h :: t => (c :: h) :: t
        | [] => [[c]])
    [[]]).map (fun cs => String.mk cs)

/-- Parse a plain decimal string (array index test of the `in` operator). -/
def strToNatQ (s : String) : Option Nat :=
  if s ≠ "" && s.toList.all (fun c => c.isDigit) then
    some (s.toList.foldl (fun n c => n * 10 + (c.toNat - 48)) 0)
  else none

/-- A named validation rule of a constraint: predicate plus failure message,
as stored in the source's `_map` registry. -/
structure Rule : Type where
  fn : JSValue → Bool
  message : String

/-- The `expectType` attribute of a constraint: either a primitive-kind tag
(compared against `typeof`) or a predicate.  Predicates run in `Except`
because the source's map/set duck-typing predicates can raise `TypeError`. -/
inductive ExpectKind : Type where
  | tag (s : String)
  | pred (f : JSValue → Except JSErr Bool)

/-- State of a `Constraint` instance: the `expectType`, the insertion-ordered
rule registry `_map`, the `_null` / `_undefined` permission flags and the
`_errors` list of the most recent `apply`. -/
structure CState : Type where
  expect : ExpectKind
  rules : List (String × Rule) := []
  allowNull : Bool := false
  allowUndef : Bool := false
  errors : List String := []

/-- `Constraint.fails()`. -/
def CState.fails (c : CState) : Bool := c.errors ≠ []

/-- `Constraint.nullable()`. -/
def CState.nullable (c : CState) : CState := { c with allowNull := true }

/-- `Constraint.nullish()` (sets both `_undefined` and `_null`). -/
def CState.nullish (c : CState) : CState :=
  { c with allowUndef := true, allowNull := true }

/-- Evaluation of the `expectType` check inside `Constraint.apply`. -/
def CState.assertType (c : CState) (v : JSValue) : Except JSErr Bool :=
  match c.expect with
  | .tag s => pure (typeofJS v == s)
  | .pred f => f v

/-- The single error message recorded when the `expectType` check fails. -/
def CState.kindErrMsg (c : CState) (v : JSValue) : String :=
  match c.expect with
  | .tag s => "Value must be of type " ++ s ++ ", " ++ typeofJS v ++ " given"
  | .pred _ => "Unsupported type " ++ typeofJS v

/-- `value === null`. -/
def isNullV : JSValue → Bool
  | vNull => true
  | _ => false

/-- `typeof value === 'undefined'`. -/
def isUndefinedV : JSValue → Bool
  | vUndefined => true
  | _ => false

/-- `Constraint.apply(value)`: reset `_errors`, short-circuit on permitted
`null` / nullish values, then run the `expectType` check (one error and stop
on failure), then every named rule in registration order, appending each
failing rule's message. -/
def CState.applyC (c : CState) (v : JSValue) : Except JSErr CState := do
  let c := { c with errors := [] }
  if c.allowNull && isNullV v then
    pure c
  else if c.allowUndef && (isNullV v || isUndefinedV v) then
    pure c
  else
    let pass ← c.assertType v
    if ¬ pass then
      pure { c with errors := [c.kindErrMsg v] }
    else
      pure { c with errors :=
        c.rules.filterMap (fun r =>
          if r.2.fn v = false then some r.2.message else none) }

/-! ## Built-in constraint classes (`src/type-constraints.ts`) -/

/-- `isDateObject`: `v instanceof Date` (the `[object Date]` tag test matches
the same values in this model). -/
def isDateObject : JSValue → Bool
  | vDate _ => true
  | _ => false

/-- `Array.isArray`. -/
def isArrayV : JSValue → Bool
  | vArr _ => true
  | _ => false

/-- `StrConstraint`'s `expectType`. -/
def strConstraint : CState := { expect := .tag "string" }

/-- `NumberConstraint`'s `expectType`. -/
def numberConstraint : CState := { expect := .tag "number" }

/-- `BoolConstraint`'s `expectType`. -/
def boolConstraint : CState := { expect := .tag "boolean" }

/-- `SymbolConstraint`'s `expectType`. -/
def symbolConstraint : CState := { expect := .tag "symbol" }

/-- `DateContraint`'s `expectType` (the source's spelling). -/
def dateConstraint : CState := { expect := .pred (fun v => pure (isDateObject v)) }

/-- `ArrayConstraint`'s `expectType`. -/
def arrayConstraint : CState := { expect := .pred (fun v => pure (isArrayV v)) }

/-- `ObjectConstraint`'s `expectType`: `typeof value === 'object'` (which is
also true of `null`). -/
def objectConstraint : CState :=
  { expect := .pred (fun v => pure (typeofJS v == "object")) }

/-- `NoConstraint`'s `expectType`. -/
def noConstraint : CState := { expect := .pred (fun _ => pure true) }

/-- `NullishConstraint`'s `expectType`. -/
def nullishConstraint : CState :=
  { expect := .pred (fun v => pure (isUndefinedV v || isNullV v)) }

/-- `NullConstraint`'s `expectType`. -/
def nullConstraint : CState := { expect := .pred (fun v => pure (isNullV v)) }

/-- `MapConstraint`'s `expectType`: a `Map` instance, or a duck-typed check of
`clear`/`delete`/`get`/`has`/`set` members on any `typeof === 'object'` value.
`null` passes the `typeof` guard, so reading `null.clear` raises a
`TypeError`.  No `JSValue` carries function-valued members, so the duck check
is false on every other object-typed value. -/
def mapExpectType (v : JSValue) : Except JSErr Bool :=
  match v with
  | vMap _ => pure true
  | _ =>
    if typeofJS v == "object" then
      if isNullV v then
        Except.error (.typeError "Cannot read properties of null (reading 'clear')")
      else pure false
    else pure false

/-- `MapConstraint`'s state. -/
def mapConstraint : CState := { expect := .pred mapExpectType }

/-- `SetConstraint`'s `expectType`: like `mapExpectType` but with the
`add`/`clear`/`delete`/`has` duck check (first member read is `add`). -/
def setExpectType (v : JSValue) : Except JSErr Bool :=
  match v with
  | vSet _ => pure true
  | _ =>
    if typeofJS v == "object" then
      if isNullV v then
        Except.error (.typeError "Cannot read properties of null (reading 'add')")
      else pure false
    else pure false

/-- `SetConstraint`'s state. -/
def setConstraint : CState := { expect := .pred setExpectType }

/-! ### `StrConstraint` rule-adding methods

Each method is modelled as `CState → … → CState × Bool` where the `Bool`
records whether the source method ends in `return this` (so that a chained
call receives the constraint instance rather than `undefined`).  All methods
except `notEmpty` return `this`; `notEmpty` has no return statement and
registers its rule under the key `ends_with`, the same key `endsWith` uses. -/

/-- Rule predicates run only on values that already passed the kind check;
each predicate nevertheless re-checks `typeof value === 'string'` exactly
where the source does. -/
def strMinLengthFn (len : Nat) : JSValue → Bool
  | vStr s => s.length ≥ len
  | _ => false

def strMaxLengthFn (len : Nat) : JSValue → Bool
  | vStr s => s.length ≤ len
  | _ => false

def strStartsWithFn (needle : String) : JSValue → Bool
  | vStr s => jsStartsWith s needle
  | _ => false

def strEndsWithFn (needle : String) : JSValue → Bool
  | vStr s => jsEndsWith s needle
  | _ => false

/-- `length(len)`'s predicate has no `typeof` guard in the source; it is only
ever run on strings (after the kind check). -/
def strLengthFn (len : Nat) : JSValue → Bool
  | vStr s => s.length == len
  | _ => false

/-- `notEmpty`'s predicate: defined and a string and nonblank after `trim`. -/
def strNotEmptyFn : JSValue → Bool
  | vStr s => jsTrim s ≠ ""
  | _ => false

/-- A regular expression, reduced to its test function and source text. -/
structure JSRegExp : Type where
  test : String → Bool
  source : String

def strPatternFn (regex : JSRegExp) : JSValue → Bool
  | vStr s => regex.test s
  | _ => false

namespace StrConstraint

def minLength (c : CState) (len : Nat) (message : Option String := none) :
    CState × Bool :=
  ({ c with rules := (mapSet c.rules "min_len"
      ⟨strMinLengthFn len, message.getD
        ("Expect length string length to be greater than or equal to " ++
          toString len)⟩) }, true)

def maxLength (c : CState) (len : Nat) (message : Option String := none) :
    CState × Bool :=
  ({ c with rules := (mapSet c.rules "max_len"
      ⟨strMaxLengthFn len, message.getD
        ("Expect length string length to be less than or equal to " ++
          toString len)⟩) }, true)

def pattern (c : CState) (regex : JSRegExp) (message : Option String := none) :
    CState × Bool :=
  ({ c with rules := (mapSet c.rules "pattern"
      ⟨strPatternFn regex, message.getD
        ("Expect the string to match the corresponding pattern " ++
          regex.source)⟩) }, true)

def startsWith (c : CState) (needle : String)
    (message : Option String := none) : CState × Bool :=
  ({ c with rules := (mapSet c.rules "starts_with"
      ⟨strStartsWithFn needle, message.getD
        ("Expect string value to starts with " ++ needle)⟩) }, true)

def endsWith (c : CState) (needle : String)
    (message : Option String := none) : CState × Bool :=
  ({ c with rules := (mapSet c.rules "ends_with"
      ⟨strEndsWithFn needle, message.getD
        ("Expect string value to ends with " ++ needle)⟩) }, true)

def length (c : CState) (len : Nat) (message : Option String := none) :
    CState × Bool :=
  ({ c with rules := (mapSet c.rules "len"
      ⟨strLengthFn len, message.getD
        ("Expect computed length of the string to equal " ++ toString len)⟩) },
    true)

/-- `notEmpty` registers under the key `ends_with` and does not return
`this`. -/
def notEmpty (c : CState) (message : Option String := none) : CState × Bool :=
  ({ c with rules := (mapSet c.rules "ends_with"
      ⟨strNotEmptyFn, message.getD "Attribute must not be empty"⟩) }, false)

end StrConstraint

/-! ### `NumberConstraint.min` (used by the witnesses) -/

def numMinFn (min : Int) : JSValue → Bool
  | vNum (.int i) => i ≥ min
  | _ => false

namespace NumberConstraint

def min (c : CState) (m : Int) (message : Option String := none) :
    CState × Bool :=
  ({ c with rules := (mapSet c.rules "min"
      ⟨numMinFn m, message.getD
        ("Expect the value to be greater than or equal to " ++ toString m)⟩) },
    true)

end NumberConstraint

/-! ### `ObjectConstraint.required` and its closure state

`required(keys)` captures a `missingKeys` array in the closure of its rule
function at registration time.  The array is appended to on every `apply`
and never reset, and the default message is interpolated once at
registration (when `missingKeys` is still empty), producing the constant
string `"Missing object properties "`.  The closure state forces a
dedicated, explicitly stateful model of this constraint. -/

structure RequiredClosure : Type where
  keys : List String
  missingKeys : List String
  message : String

/-- Full state of an `ObjectConstraint` configured with at most the
`required` rule. -/
structure ObjCState : Type where
  req : Option RequiredClosure := none
  allowNull : Bool := false
  allowUndef : Bool := false
  errors : List String := []

def ObjCState.fails (c : ObjCState) : Bool := c.errors ≠ []

/-- `ObjectConstraint.required(keys, message?)`: registers the rule, capturing
a fresh empty `missingKeys` array and computing the default message from the
(empty) array immediately. -/
def ObjCState.required (c : ObjCState) (keys : List String)
    (message : Option String := none) : ObjCState :=
  { c with req := some ⟨keys, [],
      message.getD ("Missing object properties " ++
        String.intercalate ", " ([] : List String))⟩ }

/-- `key in value` for the values that can reach the `required` rule
(`typeof value === 'object'` has already passed): own-property test on plain
objects, index test on arrays, `false` on the remaining object-typed values,
and a `TypeError` on `null`. -/
def jsHasProp (v : JSValue) (k : String) : Except JSErr Bool :=
  match v with
  | vObj props => pure (alistLookup props k).isSome
  | vArr items => pure (match strToNatQ k with
      | some i => i < items.length
      | none => false)
  | vNull => Except.error (.typeError
      ("Cannot use 'in' operator to search for '" ++ k ++ "' in null"))
  | _ => pure false

/-- `Constraint.apply` specialised to `ObjectConstraint`: the generic reset /
nullish short-circuit / kind-check steps, then the `required` rule, whose
closure appends the currently missing keys to the captured `missingKeys`
array and succeeds only when that accumulated array is empty. -/
def ObjCState.applyC (c : ObjCState) (v : JSValue) : Except JSErr ObjCState := do
  let c := { c with errors := [] }
  if c.allowNull && isNullV v then
    pure c
  else if c.allowUndef && (isNullV v || isUndefinedV v) then
    pure c
  else if ¬ (typeofJS v == "object") then
    pure { c with errors := ["Unsupported type " ++ typeofJS v] }
  else
    match c.req with
    | none => pure c
    | some r => do
      let missing ← r.keys.foldlM (fun acc k => do
        let has ← jsHasProp v k
        pure (if has then acc else acc ++ [k])) r.missingKeys
      let pass := missing.isEmpty
      pure { c with
        req := some ({ r with missingKeys := missing }),
        errors := if pass then [] else [r.message] }

/-! ## Coercion functions (the `coerceFunc` arguments built by the
`BuiltType` factory methods) -/

mutual

/-- `String(value)`: JavaScript string conversion via the `String`
constructor (which, unlike implicit conversion, accepts symbols).  The exact
text produced for dates is an implementation detail no theorem relies on. -/
def jsStringOf : JSValue → String
  | vUndefined => "undefined"
  | vNull => "null"
  | vBool b => if b then "true" else "false"
  | vNum (.int i) => toString i
  | vNum .nan => "NaN"
  | vStr s => s
  | vSym d => "Symbol(" ++ d ++ ")"
  | vDate t => "[Date " ++ toString t ++ "]"
  | vArr items => jsStringOfItems items
  | vObj _ => "[object Object]"
  | vMap _ => "[object Map]"
  | vSet _ => "[object Set]"

/-- `Array.prototype.toString`: elements joined with `,`, holes and nullish
elements as empty strings. -/
def jsStringOfItems : List JSValue → String
  | [] => ""
  | [x] => jsStringOfElem x
  | x :: rest => jsStringOfElem x ++ "," ++ jsStringOfItems rest

def jsStringOfElem : JSValue → String
  | vNull => ""
  | vUndefined => ""
  | x => jsStringOf x

end

/-- `Number(value)`.  String and array inputs use a simplified numeric
conversion (plain optionally-signed digit strings; everything else `NaN`);
no theorem below exercises those branches.  Symbols raise `TypeError`. -/
def jsNumberOf (v : JSValue) : Except JSErr JSNum :=
  match v with
  | vUndefined => pure .nan
  | vNull => pure (.int 0)
  | vBool b => pure (.int (if b then 1 else 0))
  | vNum n => pure n
  | vStr s =>
    let t := jsTrim s
    if t = "" then pure (.int 0)
    else if jsStartsWith t "-" then
      pure (match strToNatQ (String.mk t.toList.tail) with
        | some n => .int (-(n : Int))
        | none => .nan)
    else
      pure (match strToNatQ t with
        | some n => .int (n : Int)
        | none => .nan)
  | vSym _ => Except.error (.typeError "Cannot convert a Symbol value to a number")
  | vDate t => pure (.int t)
  | vArr _ => pure .nan
  | vObj _ => pure .nan
  | vMap _ => pure .nan
  | vSet _ => pure .nan

/-- `Symbol(value)`: rejects symbol arguments (their implicit string
conversion raises `TypeError`); any other value becomes the new symbol's
description via string conversion. -/
def jsSymbolCtor (v : JSValue) : Except JSErr JSValue :=
  match v with
  | vSym _ => Except.error (.typeError "Cannot convert a Symbol value to a string")
  | _ => pure (vSym (jsStringOf v))

/-- Adding to a JavaScript `Set`: `SameValueZero` deduplication, insertion
order preserved. -/
def jsSetAdd (l : List JSValue) (x : JSValue) : List JSValue :=
  if l.any (fun y => JSValue.beq y x) then l else l ++ [x]

def jsSetOfList (l : List JSValue) : List JSValue := l.foldl jsSetAdd []

/-- `new Set(value)`: copies iterables (sets, arrays, the characters of a
string, the `[key, value]` pair arrays of a map), accepts `null`/`undefined`
as empty, and raises `TypeError` on non-iterables. -/
def jsSetCtor (v : JSValue) : Except JSErr JSValue :=
  match v with
  | vSet l => pure (vSet (jsSetOfList l))
  | vArr l => pure (vSet (jsSetOfList l))
  | vStr s => pure (vSet (jsSetOfList (s.toList.map (fun ch => vStr (String.mk [ch])))))
  | vMap e => pure (vSet (e.map (fun p => vArr [p.1, p.2])))
  | vNull => pure (vSet [])
  | vUndefined => pure (vSet [])
  | _ => Except.error (.typeError "value is not iterable")

/-- `new Map(value)`: copies a map or a list of `[key, value]` pairs,
accepts `null`/`undefined` as empty, raises `TypeError` otherwise. -/
def jsMapEntryAdd (acc : List (JSValue × JSValue)) (x : JSValue) :
    Except JSErr (List (JSValue × JSValue)) :=
  match x with
  | vArr (k :: rest) => pure (mapSet acc k (rest.headD vUndefined))
  | vArr [] => pure (mapSet acc vUndefined vUndefined)
  | _ => Except.error (JSErr.typeError "Iterator value is not an entry object")

def jsMapCtor (v : JSValue) : Except JSErr JSValue :=
  match v with
  | vMap e => pure (vMap (e.foldl (fun acc p => mapSet acc p.1 p.2) []))
  | vArr l => (l.foldlM jsMapEntryAdd []).map vMap
  | vNull => pure (vMap [])
  | vUndefined => pure (vMap [])
  | _ => Except.error (JSErr.typeError "value is not iterable")

/-! ## Type definitions (`src/types.ts`) and factory plumbing
(`src/helpers.ts`) -/

/-- The merged `TypeDef` attached to a node: the bound constraint, the
installed coercion function (absent unless the factory's `coerce` flag chose
one) and the description used in thrown-error messages. -/
structure Defn : Type where
  constraint : CState
  coerce : Option (JSValue → Except JSErr JSValue) := none
  description : Option String := none

/-- The user-facing partial definition accepted by the factory methods
(`PartrialTypeDef`, the source's spelling): an optional constraint override,
a coercion toggle and a description. -/
structure PartrialTypeDef : Type where
  coerce : Bool := false
  constraint : Option CState := none
  description : Option String := none

/-- `mergeTypeDefRequiredParams(c, def, coerceFunc)`: when the user
definition carries a `constraint` it is used as-is together with the user's
`coerce`/`description` fields; otherwise the factory's default constraint
fills in.  The coercion function is installed only when the `coerce` flag is
truthy. -/
def mergeTypeDefRequiredParams (c : CState) (d : PartrialTypeDef)
    (coerceFunc : Option (JSValue → Except JSErr JSValue)) : Defn :=
  match d.constraint with
  | some cc =>
    { constraint := cc, coerce := if d.coerce then coerceFunc else none,
      description := d.description }
  | none =>
    { constraint := c, coerce := if d.coerce then coerceFunc else none,
      description := d.description }

/-! ## Parse results, the schema node, and the composite parsers
(`src/parse-types.ts`, `src/base.ts`) -/

/-- `TypeParseResult`: data, failure flag, error payload (a `JSValue`:
`undefined`, an array of strings, a path-keyed object, or a map of pairs)
and the reserved `aborted` flag (always `false`). -/
structure TypeParseResult : Type where
  data : JSValue
  fails : Bool
  errors : JSValue := vUndefined
  aborted : Bool := false

/-- `SafeParseReturnType`: the public envelope.  On failure the `data` field
is absent (`undefined`); on success `errors` is set to `undefined`. -/
structure SafeParseReturnType : Type where
  success : Bool
  errors : JSValue
  data : JSValue

/-- Constraint error lists as JavaScript arrays of strings. -/
def errsToJS (es : List String) : JSValue := vArr (es.map vStr)

/-- A `_Type` instance: its `_def`, its `_parseFn`, and its (possibly absent)
reverse type.  The source defers the reverse node behind a memoised factory
closure; the construction is pure, so the field holds the factory's value.
The composite factories store closures over their child nodes as `_parseFn`,
exactly as `createParseArray` and friends do. -/
inductive Node : Type where
  | mk (defn : Defn) (parseFn : JSValue → Except JSErr TypeParseResult)
      (reverseTypeF : Option Node)

/-- The node's `_def`. -/
def Node.defn : Node → Defn
  | .mk d _ _ => d

/-- The node's `_parseFn`. -/
def Node.parseFn : Node → JSValue → Except JSErr TypeParseResult
  | .mk _ p _ => p

/-- The node's `reverseType` accessor (the memoised lazy factory's value:
`undefined` for every node whose factory installed none). -/
def Node.reverseType : Node → Option Node
  | .mk _ _ r => r

/-- The default `_parseFn` installed by the `_Type` constructor when none is
given: wrap the value in a non-failing result. -/
def defaultParseFn : JSValue → Except JSErr TypeParseResult :=
  fun v => pure ⟨v, false, vUndefined, false⟩

/-- `createType(def, _parseFn?, _reverseTypeFactory?)`. -/
def createType (d : Defn)
    (parseFn : Option (JSValue → Except JSErr TypeParseResult) := none)
    (reverseTypeF : Option Node := none) : Node :=
  .mk d (parseFn.getD defaultParseFn) reverseTypeF

/-- The envelope construction at the end of `_Type.safeParse`. -/
def mkEnvelope (r : TypeParseResult) : SafeParseReturnType :=
  if r.fails then ⟨false, r.errors, vUndefined⟩
  else ⟨true, vUndefined, r.data⟩

/-- `_Type.safeParse(value)`: coerce when configured, run the bound
constraint, and when it does not fail run the node's parse function;
otherwise wrap the constraint's errors.  Exceptions raised by coercion, by
the constraint's `expectType` predicate or by a parser propagate. -/
def Node.safeParse (n : Node) (v : JSValue) :
    Except JSErr SafeParseReturnType := do
  let v ← match n.defn.coerce with
    | some f => f v
    | none => pure v
  let c ← n.defn.constraint.applyC v
  let r ←
    if ¬ c.fails then n.parseFn v
    else pure ⟨vUndefined, true, errsToJS c.errors, false⟩
  pure (mkEnvelope r)

/-- `_Type.parse(value)`: delegate to `safeParse` and raise a structured
`ParseError` (with the description-derived message when present) on
failure. -/
def Node.parse (n : Node) (v : JSValue) : Except JSErr JSValue := do
  let result ← n.safeParse v
  if ¬ result.success then
    Except.error (.parseError result.errors
      (n.defn.description.map (fun d => "Failed parsing " ++ d ++ " input")))
  else pure result.data

/-- `_Type.isOptional()`: probe `safeParse(undefined)`. -/
def Node.isOptional (n : Node) : Except JSErr Bool :=
  (n.safeParse vUndefined).map (fun r => r.success)

/-- `_Type.isNullable()`: probe `safeParse(null)`. -/
def Node.isNullable (n : Node) : Except JSErr Bool :=
  (n.safeParse vNull).map (fun r => r.success)

/-- `_Type.nullable()`: mutate the bound constraint's allow-null flag and
return the node. -/
def Node.nullable (n : Node) : Node :=
  .mk { n.defn with constraint := n.defn.constraint.nullable } n.parseFn
    n.reverseType

/-- `_Type.nullish()`: mutate the bound constraint's nullish flags and
return the node. -/
def Node.nullish (n : Node) : Node :=
  .mk { n.defn with constraint := n.defn.constraint.nullish } n.parseFn
    n.reverseType

/-- `_Type.describe(description)`: a new node built from the spread `_def`
with the description replaced; the constructor receives neither a parse
function (so the copy gets the default one) nor a reverse factory. -/
def Node.describe (n : Node) (description : String) : Node :=
  .mk { n.defn with description := some description } defaultParseFn none

/-- The `safeParse` helper of `src/helpers.ts` (the forward object parser's
per-property `tParseFn`). -/
def safeParseH (t : Node) (v : JSValue) : Except JSErr SafeParseReturnType :=
  t.safeParse v

/-- `safeParseReverse(value, type)`: parse through the child's `reverseType`
when it exists; otherwise report success with the value as-is and the
informational errors field. -/
def safeParseReverse (t : Node) (v : JSValue) :
    Except JSErr SafeParseReturnType :=
  match t.reverseType with
  | some r => r.safeParse v
  | none =>
    pure (SafeParseReturnType.mk true
      (errsToJS ["reverse type definition not provided"]) v)

/-- Modelled from the spec: the external property-lookup capability
(`getObjectProperty` from `@azlabsjs/js-object`, deliberately excluded from
the core, spec §1/§6): descend the dotted key path through plain objects,
returning `undefined` as the absence sentinel (distinct from a present
`null`). -/
def getPath : JSValue → List String → JSValue
  | v, [] => v
  | vObj props, k :: rest =>
    (match alistLookup props k with
     | some x => getPath x rest
     | none => vUndefined)
  | _, _ :: _ => vUndefined

/-- Modelled from the spec: `lookup(container, dotted-or-plain-key) ->
value | absent`. -/
def getObjectProperty (v : JSValue) (key : String) : JSValue :=
  getPath v (splitPath key)

/-- The per-index loop of `createParseArray`: a child success with truthy
data is appended to the output; every other outcome records the child's
error payload under the key `*.<index>`. -/
def parseArrayGo (childParse : JSValue → Except JSErr SafeParseReturnType) :
    List JSValue → Nat → List JSValue → List (String × JSValue) → Bool →
    Except JSErr TypeParseResult
  | [], _, output, errs, hasErrors =>
    pure ⟨vArr output, hasErrors,
      (if hasErrors then vObj errs else vUndefined), false⟩
  | item :: rest, index, output, errs, hasErrors => do
    let r ← childParse item
    if r.success && jsTruthy r.data then
      parseArrayGo childParse rest (index + 1) (output ++ [r.data]) errs
        hasErrors
    else
      parseArrayGo childParse rest (index + 1) output
        (mapSet errs ("*." ++ toString index) r.errors) true

/-- `createParseArray(t)`: iterate `items ?? []` (so a nullish input is an
empty sequence); any other non-array value would have no `forEach`. -/
def createParseArray (t : Node) : JSValue → Except JSErr TypeParseResult :=
  fun v =>
    match v with
    | vArr items => parseArrayGo t.safeParse items 0 [] [] false
    | vNull => parseArrayGo t.safeParse [] 0 [] [] false
    | vUndefined => parseArrayGo t.safeParse [] 0 [] [] false
    | _ => Except.error (.typeError "items.forEach is not a function")

/-- The per-element loop of `createParseSet`: a child success (no truthiness
test here) is added to the output set; a failure records the error under
`*.<index>`. -/
def parseSetGo (childParse : JSValue → Except JSErr SafeParseReturnType) :
    List JSValue → Nat → List JSValue → List (String × JSValue) → Bool →
    Except JSErr TypeParseResult
  | [], _, output, errs, hasErrors =>
    pure ⟨vSet output, hasErrors,
      (if hasErrors then vObj errs else vUndefined), false⟩
  | item :: rest, index, output, errs, hasErrors => do
    let r ← childParse item
    if r.success then
      parseSetGo childParse rest (index + 1) (jsSetAdd output r.data) errs
        hasErrors
    else
      parseSetGo childParse rest (index + 1) output
        (mapSet errs ("*." ++ toString index) r.errors) true

/-- `createParseSet(t)`: `if (items)` skips iteration for nullish input;
arrays also expose `forEach`, any other value has none. -/
def createParseSet (t : Node) : JSValue → Except JSErr TypeParseResult :=
  fun v =>
    match v with
    | vSet items => parseSetGo t.safeParse items 0 [] [] false
    | vArr items => parseSetGo t.safeParse items 0 [] [] false
    | vNull => pure ⟨vSet [], false, vUndefined, false⟩
    | vUndefined => pure ⟨vSet [], false, vUndefined, false⟩
    | _ => Except.error (.typeError "items.forEach is not a function")

/-- The per-entry loop of `createParseMap`: an entry is kept only when both
the key and the value parse succeed with truthy data; otherwise the original
key maps to the pair of error payloads in a `Map` of errors. -/
def parseMapGo (keyParse valParse : JSValue → Except JSErr SafeParseReturnType) :
    List (JSValue × JSValue) → List (JSValue × JSValue) →
    List (JSValue × JSValue) → Bool → Except JSErr TypeParseResult
  | [], output, errs, hasErrors =>
    pure ⟨vMap output, hasErrors,
      (if hasErrors then vMap errs else vUndefined), false⟩
  | (k, item) :: rest, output, errs, hasErrors => do
    let rKey ← keyParse k
    let rVal ← valParse item
    if rKey.success && jsTruthy rKey.data && rVal.success &&
        jsTruthy rVal.data then
      parseMapGo keyParse valParse rest (mapSet output rKey.data rVal.data)
        errs hasErrors
    else
      parseMapGo keyParse valParse rest output
        (mapSet errs k (vArr [rKey.errors, rVal.errors])) true

/-- `createParseMap(key, value)`: `if (items)` skips iteration for nullish
input; a `Set`'s `forEach` passes each element as both entry value and key. -/
def createParseMap (tKey tValue : Node) :
    JSValue → Except JSErr TypeParseResult :=
  fun v =>
    match v with
    | vMap entries => parseMapGo tKey.safeParse tValue.safeParse entries [] [] false
    | vSet items =>
      parseMapGo tKey.safeParse tValue.safeParse
        (items.map (fun x => (x, x))) [] [] false
    | vNull => pure ⟨vMap [], false, vUndefined, false⟩
    | vUndefined => pure ⟨vMap [], false, vUndefined, false⟩
    | _ => Except.error (.typeError "items.forEach is not a function")

/-- A resolved entry of the property map: input key, bound child node,
output key. -/
structure PropEntry : Type where
  inputKey : String
  node : Node
  outputKey : String

/-- The resolved input key of a declared key: the remap entry when present
(`propertyMap[key] ?? key`). -/
def inputKeyOf (propertyMap : List (String × String)) (key : String) :
    String :=
  (alistLookup propertyMap key).getD key

/-- `createPropMapFunc(shape, propertyMap)`: for each declared key, the input
key is the remap entry when present (`propertyMap[key] ?? key`), the child
node the declared one. -/
def createPropMapFunc (shape : List (String × Node))
    (propertyMap : List (String × String)) : List PropEntry :=
  shape.map (fun p => ⟨inputKeyOf propertyMap p.1, p.2, p.1⟩)

/-- The `root` argument of `createParseObject`.  `BuiltType._object` passes a
freshly allocated object where the string parameter is expected; its
template-literal conversion in the error-key interpolation is
`[object Object]`. -/
def objRoot : String := "[object Object]"

/-- The property loop of `createParseObject`: read the input key's value
through the external lookup capability, delegate to `tParseFn`, assign
successes under the output key and record failures under
`<root>.<input-key>`. -/
def parseObjGo (tParseFn : Node → JSValue → Except JSErr SafeParseReturnType)
    (root : String) (value : JSValue) :
    List PropEntry → List (String × JSValue) → List (String × JSValue) →
    Bool → Except JSErr TypeParseResult
  | [], inst, errs, hasErrors =>
    pure ⟨vObj inst, hasErrors,
      (if hasErrors then vObj errs else vUndefined), false⟩
  | prop :: rest, inst, errs, hasErrors => do
    let r ← tParseFn prop.node (getObjectProperty value prop.inputKey)
    if r.success then
      parseObjGo tParseFn root value rest (mapSet inst prop.outputKey r.data)
        errs hasErrors
    else
      parseObjGo tParseFn root value rest inst
        (mapSet errs (root ++ "." ++ prop.inputKey) r.errors) true

/-- `createParseObject(createProp, tParseFn, root)`: resolve the property map
(recomputed per parse) and run the property loop on it. -/
def createParseObject (createProp : Unit → List PropEntry)
    (tParseFn : Node → JSValue → Except JSErr SafeParseReturnType)
    (root : String) : JSValue → Except JSErr TypeParseResult :=
  fun v => parseObjGo tParseFn root v (createProp ()) [] [] false

/-! ## The reverse-shape builder (`createObjectReverseShape` in
`src/helpers.ts`) -/

/-- The reverse shape's output key for a declared key: the remap entry when
it is truthy (a nonempty string), the declared key itself otherwise
(`_propMap[key] ? _propMap[key] : key`). -/
def revKeyOf (remap : List (String × String)) (key : String) : String :=
  match alistLookup remap key with
  | some v => if v ≠ "" then v else key
  | none => key

/-- The `_output` shape of `createObjectReverseShape`: each declared key
contributes its child node under `revKeyOf`, with object-assignment collapse
on duplicate keys. -/
def buildRevShape (shape : List (String × Node))
    (remap : List (String × String)) : List (String × Node) :=
  shape.foldl (fun acc p => mapSet acc (revKeyOf remap p.1) p.2) []

/-- The `_outputPropMap` of `createObjectReverseShape`: each truthy remap
entry `key ↦ v` contributes `v ↦ key`. -/
def buildRevMap (remap : List (String × String)) : List (String × String) :=
  remap.foldl (fun acc p => if p.2 ≠ "" then mapSet acc p.2 p.1 else acc) []

/-- `createObjectReverseShape(dict, propMap, def)`: the reverse shape, the
reverse property map, and a type definition merged afresh from the same
partial definition over a new `ObjectConstraint`. -/
def createObjectReverseShape (shape : List (String × Node))
    (remap : List (String × String)) (d : PartrialTypeDef) :
    List (String × Node) × List (String × String) × Defn :=
  (buildRevShape shape remap, buildRevMap remap,
    mergeTypeDefRequiredParams objectConstraint d none)

/-! ## The `BuiltType` factory methods (`src/built-type.ts`) -/

/-- `BuiltType._str`. -/
def _str (d : PartrialTypeDef := {}) : Node :=
  createType (mergeTypeDefRequiredParams strConstraint d
    (some (fun v => pure (vStr (jsStringOf v)))))

/-- `BuiltType._num`. -/
def _num (d : PartrialTypeDef := {}) : Node :=
  createType (mergeTypeDefRequiredParams numberConstraint d
    (some (fun v => (jsNumberOf v).map vNum)))

/-- `BuiltType._bool`. -/
def _bool (d : PartrialTypeDef := {}) : Node :=
  createType (mergeTypeDefRequiredParams boolConstraint d
    (some (fun v => pure (vBool (jsTruthy v)))))

/-- `BuiltType._symbol`. -/
def _symbol (d : PartrialTypeDef := {}) : Node :=
  createType (mergeTypeDefRequiredParams symbolConstraint d
    (some jsSymbolCtor))

/-- `BuiltType._date`: coercion wraps a non-`Date` in a `Date`.  (The `Date`
constructor's string parsing is not modelled; integer timestamps map to
their date, anything else to an unspecified date.) -/
def _date (d : PartrialTypeDef := {}) : Node :=
  createType (mergeTypeDefRequiredParams dateConstraint d
    (some (fun v =>
      match v with
      | vDate _ => pure v
      | vNum (.int n) => pure (vDate n)
      | _ => pure (vDate 0))))

/-- `BuiltType._array`: coercion wraps a non-array, non-nullish value in a
singleton array. -/
def _array (t : Node) (d : PartrialTypeDef := {}) : Node :=
  createType
    (mergeTypeDefRequiredParams arrayConstraint d
      (some (fun v =>
        match v with
        | vArr _ => pure v
        | vNull => pure v
        | vUndefined => pure v
        | _ => pure (vArr [v]))))
    (some (createParseArray t))

/-- `BuiltType._set`. -/
def _set (t : Node) (d : PartrialTypeDef := {}) : Node :=
  createType (mergeTypeDefRequiredParams setConstraint d (some jsSetCtor))
    (some (createParseSet t))

/-- `BuiltType._map`. -/
def _map (tKey tValue : Node) (d : PartrialTypeDef := {}) : Node :=
  createType (mergeTypeDefRequiredParams mapConstraint d (some jsMapCtor))
    (some (createParseMap tKey tValue))

/-- `BuiltType._null`. -/
def _null : Node := createType { constraint := nullConstraint }

/-- `BuiltType._undefined`. -/
def _undefined : Node := createType { constraint := nullishConstraint }

/-- `BuiltType._mixed`. -/
def _mixed : Node := createType { constraint := noConstraint }

/-- `BuiltType._object(dict, propMap?, def?)`: the forward node parses with
`createParseObject` over the declared shape, and its reverse-type factory
derives the reverse node from `createObjectReverseShape`, whose per-property
parser is `safeParseReverse`.  The definition carries no coercion option. -/
def _object (shape : List (String × Node))
    (remap : List (String × String) := []) (d : PartrialTypeDef := {}) :
    Node :=
  createType
    (mergeTypeDefRequiredParams objectConstraint { d with coerce := false }
      none)
    (some (createParseObject (fun _ => createPropMapFunc shape remap)
      safeParseH objRoot))
    (some
      (match createObjectReverseShape shape remap { d with coerce := false } with
       | (revShape, revMap, revDef) =>
         createType revDef
           (some (createParseObject (fun _ => createPropMapFunc revShape revMap)
             safeParseReverse objRoot))))

/-! ## Reference model of constraint sharing across `describe`
(`_Type.describe`, `_Type.nullable`, `_Type.nullish` in `src/base.ts`)

`describe` builds a new node from the spread `{...this._def, description}`,
copying the `constraint` field by reference; `nullable`/`nullish` mutate
that shared instance in place.  The store maps constraint references to
constraint states; nodes carry the reference.  This model covers nodes with
the default identity parse function and no coercion, for which
`safeParse(x).success` is decided by the constraint alone. -/

/-- A heap of constraint instances. -/
def Store : Type := Nat → CState

def storeSet (st : Store) (r : Nat) (c : CState) : Store :=
  fun r' => if r' = r then c else st r'

/-- A schema node as a reference into the constraint heap plus its
description. -/
structure NodeRef : Type where
  constraintRef : Nat
  description : Option String := none

/-- `_Type.describe(description)`: a new node of the same kind whose `_def`
is the spread of the existing one with the description replaced. -/
def NodeRef.describe (n : NodeRef) (description : String) : NodeRef :=
  { n with description := some description }

/-- `_Type.nullable()`: mutate the referenced constraint instance. -/
def nullableRef (n : NodeRef) (st : Store) : Store :=
  storeSet st n.constraintRef ((st n.constraintRef).nullable)

/-- `_Type.nullish()`: mutate the referenced constraint instance. -/
def nullishRef (n : NodeRef) (st : Store) : Store :=
  storeSet st n.constraintRef ((st n.constraintRef).nullish)

/-- `_Type.isNullable()` for a default-parse node: `safeParse(null).success`,
which is the referenced constraint not failing on `null`. -/
def isNullableRef (n : NodeRef) (st : Store) : Except JSErr Bool :=
  ((st n.constraintRef).applyC vNull).map (fun c => ¬ c.fails)

/-- `_Type.isOptional()` for a default-parse node. -/
def isOptionalRef (n : NodeRef) (st : Store) : Except JSErr Bool :=
  ((st n.constraintRef).applyC vUndefined).map (fun c => ¬ c.fails)

/-! ## Specification-side characterisations

Named after the array parser's observable behaviour, for comparison with the
implementation (the amended aggregation claim): which elements the parser
accepts, what it outputs, and which error keys it records. -/

/-- The array parser's acceptance test for one element: the child parse
succeeds with truthy data (an exception counts as not accepted). -/
def arrayGoodB (t : Node) (x : JSValue) : Bool :=
  match t.safeParse x with
  | .ok r => r.success && jsTruthy r.data
  | .error _ => false

/-- The child's error payload as the array parser records it. -/
def arrayChildErrs (t : Node) (x : JSValue) : JSValue :=
  match t.safeParse x with
  | .ok r => r.errors
  | .error _ => vUndefined

/-- The child's parsed data. -/
def arrayChildData (t : Node) (x : JSValue) : JSValue :=
  match t.safeParse x with
  | .ok r => r.data
  | .error _ => vUndefined

/-- The output sequence: the parsed data of exactly the accepted elements. -/
def arrayOutList (t : Node) : List JSValue → List JSValue
  | [] => []
  | x :: rest =>
    if arrayGoodB t x then arrayChildData t x :: arrayOutList t rest
    else arrayOutList t rest

/-- The error entries: one `*.<index>` key per non-accepted element. -/
def arrayErrList (t : Node) : List JSValue → Nat → List (String × JSValue)
  | [], _ => []
  | x :: rest, index =>
    if arrayGoodB t x then arrayErrList t rest (index + 1)
    else ("*." ++ toString index, arrayChildErrs t x) ::
      arrayErrList t rest (index + 1)

/-! # Theorems -/

/-! ## Shared lemmas -/

theorem assertType_reset (c : CState) (v : JSValue) :
    CState.assertType { c with errors := [] } v = c.assertType v := rfl

theorem alistLookup_mem {β : Type} {l : List (String × β)} {k : String}
    {v : β} (h : alistLookup l k = some v) : (k, v) ∈ l := by
  induction l with
  | nil => simp [alistLookup] at h
  | cons p rest ih =>
    obtain ⟨k', v'⟩ := p
    rw [alistLookup] at h
    by_cases hk : (k' == k) = true
    · have hkk : k' = k := by simpa using hk
      subst hkk
      rw [if_pos (by simp)] at h
      injection h with hv
      subst hv
      exact List.mem_cons_self _ _
    · rw [if_neg hk] at h
      exact List.mem_cons_of_mem _ (ih h)

theorem alistLookup_eq_none {β : Type} {l : List (String × β)} {k : String}
    (h : k ∉ l.map Prod.fst) : alistLookup l k = none := by
  induction l with
  | nil => rfl
  | cons p rest ih =>
    rw [alistLookup]
    simp only [List.map_cons, List.mem_cons] at h
    push_neg at h
    have : (p.1 == k) = false := by simpa using (Ne.symm h.1)
    simp [this, ih h.2]

theorem alistLookup_of_mem_nodup {β : Type} {l : List (String × β)}
    {k : String} {v : β} (hnd : (l.map Prod.fst).Nodup) (hm : (k, v) ∈ l) :
    alistLookup l k = some v := by
  induction l with
  | nil => simp at hm
  | cons p rest ih =>
    simp only [List.map_cons, List.nodup_cons] at hnd
    rw [alistLookup]
    rcases List.mem_cons.mp hm with h | h
    · cases h
      simp
    · have hk : p.1 ≠ k := by
        intro he
        exact hnd.1 (he ▸ (List.mem_map.mpr ⟨(k, v), h, rfl⟩))
      have : (p.1 == k) = false := by simpa using hk
      simp [this, ih hnd.2 h]

theorem mapSet_of_not_mem {β : Type} {l : List (String × β)} {k : String}
    (x : β) (h : k ∉ l.map Prod.fst) : mapSet l k x = l ++ [(k, x)] := by
  have hany : l.any (fun p => p.1 == k) = false := by
    rw [List.any_eq_false]
    intro p hp
    simp only [beq_iff_eq]
    intro he
    exact h (List.mem_map.mpr ⟨p, hp, he⟩)
  simp [mapSet, hany]

theorem foldl_mapSet_eq_append {β : Type} (xs : List (String × β)) :
    ∀ l : List (String × β),
    ((l.map Prod.fst ++ xs.map Prod.fst).Nodup) →
    xs.foldl (fun acc p => mapSet acc p.1 p.2) l = l ++ xs := by
  induction xs with
  | nil => intro l _; simp
  | cons p rest ih =>
    intro l hnd
    have hsplit : (l.map Prod.fst ++ p.1 :: rest.map Prod.fst).Nodup := by
      simpa using hnd
    have hp : p.1 ∉ l.map Prod.fst := by
      intro hm
      exact (List.nodup_append.mp hsplit).2.2 hm (List.mem_cons_self _ _)
    rw [List.foldl_cons, mapSet_of_not_mem _ hp]
    have hnd' :
        ((l ++ [(p.1, p.2)]).map Prod.fst ++ rest.map Prod.fst).Nodup := by
      simpa [List.append_assoc] using hsplit
    rw [ih (l ++ [(p.1, p.2)]) hnd']
    simp

theorem getObjectProperty_plain (l : List (String × JSValue)) (k : String)
    (h : splitPath k = [k]) :
    getObjectProperty (vObj l) k = (alistLookup l k).getD vUndefined := by
  rw [getObjectProperty, h]
  cases hv : alistLookup l k <;> simp [getPath, hv]

/-! ## C3 -/

/-- C3: `Constraint.apply` evaluates the expected-kind check first; when the
check fails (and no nullish short-circuit fired), exactly one error is
recorded and no named rule contributes; when it succeeds, every registered
rule is evaluated in registration order with each failing rule appending its
own message, without short-circuiting. -/
theorem c3_constraint_apply_order (c : CState) (v : JSValue)
    (hNull : (c.allowNull && isNullV v) = false)
    (hUndef : (c.allowUndef && (isNullV v || isUndefinedV v)) = false) :
    (c.assertType v = .ok false →
      c.applyC v = .ok { c with errors := [c.kindErrMsg v] }) ∧
    (c.assertType v = .ok true →
      c.applyC v = .ok { c with errors := c.rules.filterMap (fun r =>
        if r.2.fn v = false then some r.2.message else none) }) := by
  constructor <;> intro h <;>
    (simp [CState.applyC, hNull, hUndef, assertType_reset, h,
      CState.kindErrMsg]
     rfl)

/-- Witness for C3: a string constraint with two failing rules and one
passing rule records both failure messages, in registration order, while a
kind mismatch records the single kind error. -/
theorem c3_constraint_apply_order_witness :
    (let c : CState := { strConstraint with rules :=
      [("min_len", ⟨strMinLengthFn 7, "too short"⟩),
       ("starts_with", ⟨strStartsWithFn "Lorem", "bad prefix"⟩),
       ("max_len", ⟨strMaxLengthFn 20, "too long"⟩)] }
     c.applyC (vStr "zz") = .ok { c with errors := ["too short", "bad prefix"] } ∧
     c.applyC (vNum (.int 3)) = .ok { c with errors :=
       ["Value must be of type string, number given"] }) := by
  refine ⟨?_, ?_⟩
  · exact (c3_constraint_apply_order _ (vStr "zz") (by decide) (by decide)).2 rfl
  · exact (c3_constraint_apply_order _ (vNum (.int 3)) (by decide) (by decide)).1 rfl

/-! ## C4 -/

/-- C4 (divergence witness): the `required` rule's closure-captured
`missingKeys` array survives between `apply` calls, so a second `apply` on a
value that has every required key still fails; a fresh constraint accepts
the same value.  The error list therefore does not reflect only the most
recent `apply` call. -/
theorem c4_required_stale_missing_keys :
    ∃ c1 c2 cFresh : ObjCState,
      (ObjCState.required {} ["a"]).applyC (vObj []) = .ok c1 ∧
      c1.fails = true ∧
      c1.applyC (vObj [("a", vNum (.int 1))]) = .ok c2 ∧
      c2.fails = true ∧
      (ObjCState.required {} ["a"]).applyC (vObj [("a", vNum (.int 1))]) =
        .ok cFresh ∧
      cFresh.fails = false :=
  ⟨_, _, _, rfl, rfl, rfl, rfl, rfl, rfl⟩

/-! ## C6 -/

/-- C6 (divergence witness): `safeParse` on a map schema (or a set schema)
raises a `TypeError` for the input `null` instead of returning a result
envelope: `null` passes the `typeof value === 'object'` guard of the
duck-typing kind check and the member read on `null` throws. -/
theorem c6_map_safeparse_null_throws :
    (_map (_str {}) (_str {}) {}).safeParse vNull =
      .error (.typeError "Cannot read properties of null (reading 'clear')") ∧
    (_set (_str {}) {}).safeParse vNull =
      .error (.typeError "Cannot read properties of null (reading 'add')") :=
  ⟨rfl, rfl⟩

/-! ## C8 -/

/-- C8 (divergence witness): `StrConstraint.notEmpty` does not return the
constraint instance (so chaining stops), and it registers its rule under the
key `ends_with`, replacing a previously registered `endsWith` rule: after
`endsWith("x")` then `notEmpty()`, one rule remains and `"hello"` (which does
not end in `"x"`) passes, while the plain `endsWith("x")` constraint rejects
it. -/
theorem c8_notempty_breaks_chaining :
    (StrConstraint.notEmpty (StrConstraint.endsWith strConstraint "x").1).2 =
      false ∧
    ((StrConstraint.notEmpty
      (StrConstraint.endsWith strConstraint "x").1).1.rules.map Prod.fst =
        ["ends_with"]) ∧
    (∃ c, (StrConstraint.notEmpty
        (StrConstraint.endsWith strConstraint "x").1).1.applyC (vStr "hello") =
          .ok c ∧
      c.fails = false) ∧
    (∃ c, (StrConstraint.endsWith strConstraint "x").1.applyC (vStr "hello") =
        .ok c ∧
      c.fails = true) :=
  ⟨rfl, rfl, ⟨_, rfl, rfl⟩, ⟨_, rfl, rfl⟩⟩

/-! ## C10 -/

/-- C10: `describe` returns a node whose definition shares the same
constraint instance by reference, so the described copy always answers the
nullability probes exactly as the original, and `nullable()`/`nullish()`
applied to either node flips the `isNullable()`/`isOptional()` answers of
both. -/
theorem c10_describe_shares_constraint (n : NodeRef) (st : Store)
    (text : String) :
    (n.describe text).constraintRef = n.constraintRef ∧
    isNullableRef (n.describe text) st = isNullableRef n st ∧
    isOptionalRef (n.describe text) st = isOptionalRef n st ∧
    isNullableRef (n.describe text) (nullableRef n st) = .ok true ∧
    isNullableRef n (nullableRef (n.describe text) st) = .ok true ∧
    isOptionalRef (n.describe text) (nullishRef n st) = .ok true ∧
    isOptionalRef n (nullishRef (n.describe text) st) = .ok true := by
  refine ⟨rfl, rfl, rfl, ?_, ?_, ?_, ?_⟩ <;>
    (simp [isNullableRef, isOptionalRef, nullableRef, nullishRef, storeSet,
      NodeRef.describe, CState.applyC, CState.nullable, CState.nullish,
      CState.fails, isNullV, isUndefinedV]
     rfl)

/-! ## C2 -/

/-- C2 (counterexample): a nullable array schema's `safeParse(null)` succeeds
but returns `[]`, not `null` — the transform (the array parser) does run on
the nullish value, refuting "returns null without invoking the transform"
for general nodes. -/
theorem c2_nullable_array_counterexample :
    (_array (_num {}) {}).nullable.safeParse vNull =
      .ok ⟨true, vUndefined, vArr []⟩ ∧
    vArr ([] : List JSValue) ≠ vNull :=
  ⟨rfl, fun h => JSValue.noConfusion h⟩

/-- C2 (amended): on a node with the default identity parse function and no
coercion (every primitive factory), `nullable()` makes `safeParse(null)`
succeed returning `null` itself, and `nullish()` additionally makes
`safeParse(undefined)` succeed returning `undefined`; the constraint
short-circuits with no errors.  (Composite nodes still run their parse
function on the nullish value, as the counterexample shows.) -/
theorem c2_nullish_short_circuit (n : Node)
    (hp : n.parseFn = defaultParseFn) (hc : n.defn.coerce = none) :
    n.nullable.safeParse vNull = .ok ⟨true, vUndefined, vNull⟩ ∧
    n.nullish.safeParse vNull = .ok ⟨true, vUndefined, vNull⟩ ∧
    n.nullish.safeParse vUndefined = .ok ⟨true, vUndefined, vUndefined⟩ := by
  obtain ⟨d, p, r⟩ := n
  simp only [Node.parseFn] at hp
  simp only [Node.defn] at hc
  subst hp
  refine ⟨?_, ?_, ?_⟩ <;>
    (simp [Node.nullable, Node.nullish, Node.safeParse, Node.defn,
      Node.parseFn, Node.reverseType, CState.nullable, CState.nullish,
      CState.applyC, CState.fails, hc, defaultParseFn, mkEnvelope,
      isNullV, isUndefinedV]
     rfl)

/-- Witness for C2 (amended), at the string factory. -/
theorem c2_nullish_short_circuit_witness :
    (_str {}).nullable.safeParse vNull = .ok ⟨true, vUndefined, vNull⟩ ∧
    (_str {}).nullish.safeParse vNull = .ok ⟨true, vUndefined, vNull⟩ ∧
    (_str {}).nullish.safeParse vUndefined =
      .ok ⟨true, vUndefined, vUndefined⟩ :=
  c2_nullish_short_circuit (_str {}) rfl rfl

/-! ## C7 -/

/-- C7 (counterexample): with coercion enabled, the symbol schema's coercion
`Symbol(value)` raises a `TypeError` on a value that is already a symbol
(implicit string conversion of a symbol throws), so parsing differs from the
coercion-free parse, which succeeds. -/
theorem c7_symbol_coercion_counterexample :
    (_symbol { coerce := true }).safeParse (vSym "a") =
      .error (.typeError "Cannot convert a Symbol value to a string") ∧
    (_symbol {}).safeParse (vSym "a") = .ok ⟨true, vUndefined, vSym "a"⟩ :=
  ⟨rfl, rfl⟩

/-- C7 (amended): coercion idempotence holds for the string, number, boolean
and date factories: with any constraint override and description, parsing a
value already of the target kind with coercion enabled gives exactly the
same result as parsing it with coercion disabled.  (The symbol factory's
coercion instead throws on symbol input, per the counterexample.) -/
theorem c7_coercion_idempotence (cc : Option CState) (desc : Option String) :
    (∀ s : String,
      (_str { coerce := true, constraint := cc, description := desc
        }).safeParse (vStr s) =
      (_str { coerce := false, constraint := cc, description := desc
        }).safeParse (vStr s)) ∧
    (∀ m : JSNum,
      (_num { coerce := true, constraint := cc, description := desc
        }).safeParse (vNum m) =
      (_num { coerce := false, constraint := cc, description := desc
        }).safeParse (vNum m)) ∧
    (∀ b : Bool,
      (_bool { coerce := true, constraint := cc, description := desc
        }).safeParse (vBool b) =
      (_bool { coerce := false, constraint := cc, description := desc
        }).safeParse (vBool b)) ∧
    (∀ t : Int,
      (_date { coerce := true, constraint := cc, description := desc
        }).safeParse (vDate t) =
      (_date { coerce := false, constraint := cc, description := desc
        }).safeParse (vDate t)) := by
  refine ⟨?_, ?_, ?_, ?_⟩ <;> intro x <;> cases cc <;>
    (simp [_str, _num, _bool, _date, createType, Node.safeParse, Node.defn,
      Node.parseFn, mergeTypeDefRequiredParams, jsStringOf, jsNumberOf,
      jsTruthy, Except.map] <;> rfl)

/-! ## C5 -/

/-- C5 (counterexample): in an array parse, an element whose child
`safeParse` succeeds but whose data is falsy (here `0`) is not appended to
the output; instead the parse fails and records the key `*.0` — even though
no element failed the child's `safeParse`.  This refutes "fails iff some
element failed" and "error keys are exactly the failing indices". -/
theorem c5_array_falsy_success_counterexample :
    (_num {}).safeParse (vNum (.int 0)) =
      .ok ⟨true, vUndefined, vNum (.int 0)⟩ ∧
    (_array (_num {}) {}).safeParse (vArr [vNum (.int 0)]) =
      .ok ⟨false, vObj [("*.0", vUndefined)], vUndefined⟩ :=
  ⟨rfl, rfl⟩

theorem exceptOkBind {ε α β : Type} (a : α) (f : α → Except ε β) :
    (Except.ok a >>= f : Except ε β) = f a := rfl

theorem arrayErrList_isEmpty (t : Node) :
    ∀ (items : List JSValue) (index : Nat),
    (arrayErrList t items index).isEmpty = items.all (arrayGoodB t) := by
  intro items
  induction items with
  | nil => intro index; simp [arrayErrList]
  | cons x rest ih =>
    intro index
    by_cases hg : arrayGoodB t x = true <;>
      simp [arrayErrList, hg, ih (index + 1)]

/-- The array loop computes exactly: accepted data appended in order, the
`hasErrors` flag, and one `*.<index>` error entry per non-accepted element,
appended behind the incoming entries. -/
theorem parseArrayGo_spec (t : Node) :
    ∀ (items : List JSValue) (index : Nat) (output : List JSValue)
      (errs : List (String × JSValue)) (he : Bool),
    (∀ x ∈ items, ∃ r, t.safeParse x = .ok r) →
    (∀ s ∈ errs.map Prod.fst, ∀ i, index ≤ i → i < index + items.length →
      s ≠ "*." ++ toString i) →
    (∀ i j, index ≤ i → i < index + items.length → index ≤ j →
      j < index + items.length →
      ("*." ++ toString i : String) = "*." ++ toString j → i = j) →
    parseArrayGo t.safeParse items index output errs he =
      .ok ⟨vArr (output ++ arrayOutList t items),
        he || !(arrayErrList t items index).isEmpty,
        (if (he || !(arrayErrList t items index).isEmpty) = true then
          vObj (errs ++ arrayErrList t items index) else vUndefined),
        false⟩ := by
  intro items
  induction items with
  | nil =>
    intro index output errs he _ _ _
    cases he <;> (simp [parseArrayGo, arrayErrList, arrayOutList]; rfl)
  | cons x rest ih =>
    intro index output errs he hok hfresh hinj
    simp only [List.length_cons] at hfresh hinj
    obtain ⟨r, hr⟩ := hok x (List.mem_cons_self _ _)
    have hok' : ∀ y ∈ rest, ∃ s, t.safeParse y = .ok s :=
      fun y hy => hok y (List.mem_cons_of_mem _ hy)
    rw [parseArrayGo, hr, exceptOkBind]
    by_cases hg : (r.success && jsTruthy r.data) = true
    · have hgood : arrayGoodB t x = true := by simp [arrayGoodB, hr, hg]
      have hdata : arrayChildData t x = r.data := by simp [arrayChildData, hr]
      rw [if_pos hg]
      rw [ih (index + 1) (output ++ [r.data]) errs he hok'
        (by intro s hs i hi1 hi2
            exact hfresh s hs i (Nat.le_of_succ_le hi1) (by omega))
        (by intro i j hi1 hi2 hj1 hj2 hij
            exact hinj i j (Nat.le_of_succ_le hi1) (by omega)
              (Nat.le_of_succ_le hj1) (by omega) hij)]
      simp only [arrayOutList, arrayErrList, hgood, hdata, if_true,
        List.append_assoc, List.singleton_append]
    · have hbad : arrayGoodB t x = false := by
        simp only [arrayGoodB, hr]
        simpa using hg
      have herrs : arrayChildErrs t x = r.errors := by
        simp [arrayChildErrs, hr]
      have hkeyfresh : ("*." ++ toString index) ∉ errs.map Prod.fst := by
        intro hm
        exact hfresh _ hm index (Nat.le_refl _) (by simp) rfl
      rw [if_neg hg, mapSet_of_not_mem _ hkeyfresh]
      rw [ih (index + 1) output (errs ++ [("*." ++ toString index, r.errors)])
        true
        hok'
        (by intro s hs i hi1 hi2
            simp only [List.map_append, List.mem_append] at hs
            rcases hs with hs | hs
            · exact hfresh s hs i (Nat.le_of_succ_le hi1) (by omega)
            · simp only [List.map_cons, List.map_nil, List.mem_singleton]
                at hs
              subst hs
              intro he'
              have := hinj index i (Nat.le_refl _) (by simp)
                (Nat.le_of_succ_le hi1) (by omega) he'
              omega)
        (by intro i j hi1 hi2 hj1 hj2 hij
            exact hinj i j (Nat.le_of_succ_le hi1) (by omega)
              (Nat.le_of_succ_le hj1) (by omega) hij)]
      simp only [arrayOutList, arrayErrList, hbad, if_false, Bool.false_eq_true,
        List.append_assoc, List.singleton_append, herrs, Bool.true_or,
        List.isEmpty_cons, Bool.not_false, Bool.or_true]

/-- C5 (amended): for an array schema, an element is accepted iff the child
`safeParse` succeeds with truthy data; the parse fails iff some element is
not accepted; the output contains exactly the accepted elements' data in
order; and the error collection has exactly the keys `*.<i>` for the
non-accepted indices `i` (an element that succeeded with falsy data
contributes its key with an `undefined` payload).  The injectivity
hypothesis records that distinct indices print distinct keys. -/
theorem c5_array_error_keys (t : Node) (items : List JSValue)
    (hok : ∀ x ∈ items, ∃ r, t.safeParse x = .ok r)
    (hinj : ∀ i, i < items.length → ∀ j, j < items.length →
      ("*." ++ toString i : String) = "*." ++ toString j → i = j) :
    (_array t {}).safeParse (vArr items) =
      .ok (if items.all (arrayGoodB t) then
            ⟨true, vUndefined, vArr (arrayOutList t items)⟩
          else ⟨false, vObj (arrayErrList t items 0), vUndefined⟩) := by
  have hx : (_array t {}).safeParse (vArr items) =
      (parseArrayGo t.safeParse items 0 [] [] false) >>= fun r =>
        pure (mkEnvelope r) := rfl
  rw [hx, parseArrayGo_spec t items 0 [] [] false hok
    (by intro s hs; simp at hs)
    (by intro i j hi1 hi2 hj1 hj2 hij
        exact hinj i (by omega) j (by omega) hij),
    exceptOkBind]
  have hiff := arrayErrList_isEmpty t items 0
  by_cases hall : items.all (arrayGoodB t) = true <;>
    (simp [mkEnvelope, hall, hiff]; rfl)

/-- Witness for C5 (amended): `[4, 0, "x"]` under a number child — index 0 is
accepted, index 1 succeeded with falsy data, index 2 failed the child parse;
the parse fails with exactly the keys `*.1` and `*.2`. -/
theorem c5_array_error_keys_witness :
    (_array (_num {}) {}).safeParse
        (vArr [vNum (.int 4), vNum (.int 0), vStr "x"]) =
      .ok ⟨false, vObj [("*.1", vUndefined),
        ("*.2", errsToJS ["Value must be of type number, string given"])],
        vUndefined⟩ := by
  have h := c5_array_error_keys (_num {})
    [vNum (.int 4), vNum (.int 0), vStr "x"]
    (by intro x hx
        rcases List.mem_cons.mp hx with h | hx
        · subst h; exact ⟨_, rfl⟩
        rcases List.mem_cons.mp hx with h | hx
        · subst h; exact ⟨_, rfl⟩
        rcases List.mem_cons.mp hx with h | hx
        · subst h; exact ⟨_, rfl⟩
        · simp at hx)
    (by decide)
  exact h.trans rfl

theorem exceptErrorBind {ε α β : Type} (e : ε) (f : α → Except ε β) :
    (Except.error e >>= f : Except ε β) = Except.error e := rfl

theorem parseObjGo_hasErrors (tpf : Node → JSValue → Except JSErr SafeParseReturnType)
    (root : String) (v : JSValue) :
    ∀ (entries : List PropEntry) (inst errs : List (String × JSValue))
      (r : TypeParseResult),
    parseObjGo tpf root v entries inst errs true = .ok r → r.fails = true := by
  intro entries
  induction entries with
  | nil =>
    intro inst errs r h
    rw [parseObjGo] at h
    injection h with h
    subst h
    rfl
  | cons e rest ih =>
    intro inst errs r h
    rw [parseObjGo] at h
    cases htp : tpf e.node (getObjectProperty v e.inputKey) with
    | error err =>
      rw [htp, exceptErrorBind] at h
      exact Except.noConfusion h
    | ok rr =>
      rw [htp, exceptOkBind] at h
      by_cases hs : rr.success = true
      · rw [if_pos hs] at h; exact ih _ _ _ h
      · rw [if_neg hs] at h; exact ih _ _ _ h

theorem parseObjGo_ok_keys (tpf : Node → JSValue → Except JSErr SafeParseReturnType)
    (root : String) (v : JSValue) :
    ∀ (entries : List PropEntry) (inst errs : List (String × JSValue))
      (r : TypeParseResult),
    (inst.map Prod.fst ++ entries.map PropEntry.outputKey).Nodup →
    parseObjGo tpf root v entries inst errs false = .ok r →
    r.fails = false →
    ∃ l, r.data = vObj l ∧
      l.map Prod.fst = inst.map Prod.fst ++ entries.map PropEntry.outputKey := by
  intro entries
  induction entries with
  | nil =>
    intro inst errs r _ h _
    rw [parseObjGo] at h
    injection h with h
    subst h
    exact ⟨inst, rfl, by simp⟩
  | cons e rest ih =>
    intro inst errs r hnd h hf
    simp only [List.map_cons] at hnd
    rw [parseObjGo] at h
    cases htp : tpf e.node (getObjectProperty v e.inputKey) with
    | error err =>
      rw [htp, exceptErrorBind] at h
      exact Except.noConfusion h
    | ok rr =>
      rw [htp, exceptOkBind] at h
      by_cases hs : rr.success = true
      · rw [if_pos hs] at h
        have hfresh : e.outputKey ∉ inst.map Prod.fst := by
          intro hm
          exact (List.nodup_append.mp hnd).2.2 hm (List.mem_cons_self _ _)
        rw [mapSet_of_not_mem _ hfresh] at h
        obtain ⟨l, h1, h2⟩ := ih (inst ++ [(e.outputKey, rr.data)]) errs r
          (by simpa [List.append_assoc] using hnd) h hf
        refine ⟨l, h1, ?_⟩
        rw [h2]
        simp
      · rw [if_neg hs] at h
        have := parseObjGo_hasErrors tpf root v rest _ _ r h
        rw [this] at hf
        cases hf

theorem c9_core (n : Node) (shape : List (String × Node))
    (remap : List (String × String)) (v : JSValue)
    (env : SafeParseReturnType)
    (hpf : n.parseFn = createParseObject (fun _ => createPropMapFunc shape remap)
      safeParseH objRoot)
    (hco : n.defn.coerce = none)
    (hnd : (shape.map Prod.fst).Nodup)
    (hek : n.safeParse v = .ok env)
    (hs : env.success = true) :
    ∃ l, env.data = vObj l ∧ l.map Prod.fst = shape.map Prod.fst := by
  simp only [Node.safeParse, hco, hpf] at hek
  rw [show (pure v : Except JSErr JSValue) = Except.ok v from rfl,
    exceptOkBind] at hek
  cases happ : n.defn.constraint.applyC v with
  | error err =>
    rw [happ, exceptErrorBind] at hek
    exact Except.noConfusion hek
  | ok c =>
    rw [happ, exceptOkBind] at hek
    by_cases hfl : c.fails = true
    · rw [if_neg (by simp [hfl])] at hek
      rw [show (pure ⟨vUndefined, true, errsToJS c.errors, false⟩ :
          Except JSErr TypeParseResult) = Except.ok _ from rfl,
        exceptOkBind] at hek
      injection hek with hek
      subst hek
      simp [mkEnvelope] at hs
    · rw [if_pos (by simp [hfl])] at hek
      simp only [createParseObject] at hek
      cases hgo : parseObjGo safeParseH objRoot v
          (createPropMapFunc shape remap) [] [] false with
      | error err =>
        rw [hgo, exceptErrorBind] at hek
        exact Except.noConfusion hek
      | ok r =>
        rw [hgo, exceptOkBind] at hek
        injection hek with hek
        subst hek
        have hrf : r.fails = false := by
          by_cases h : r.fails = true
          · simp [mkEnvelope, h] at hs
          · simpa using h
        obtain ⟨l, h1, h2⟩ := parseObjGo_ok_keys safeParseH objRoot v
          (createPropMapFunc shape remap) [] [] r
          (by simpa [createPropMapFunc, List.map_map, Function.comp]
            using hnd)
          hgo hrf
        refine ⟨l, ?_, ?_⟩
        · rw [mkEnvelope, if_neg (by simp [hrf])]
          exact h1
        · rw [h2]
          simp [createPropMapFunc, List.map_map, Function.comp]

/-- C9: whenever an object parse succeeds, the produced output object has
exactly the declared output property names as its own keys, in declaration
order — every declared key is assigned (possibly with `undefined` data) and
no input property outside the declared shape is carried over. -/
theorem c9_object_output_keys (shape : List (String × Node))
    (remap : List (String × String)) (d : PartrialTypeDef) (v : JSValue)
    (env : SafeParseReturnType)
    (hnd : (shape.map Prod.fst).Nodup)
    (hek : (_object shape remap d).safeParse v = .ok env)
    (hs : env.success = true) :
    ∃ l, env.data = vObj l ∧ l.map Prod.fst = shape.map Prod.fst := by
  refine c9_core (_object shape remap d) shape remap v env rfl ?_ hnd hek hs
  obtain ⟨dco, dcon, ddesc⟩ := d
  cases dcon <;> rfl

/-- Witness for C9: a shape `{a, b}` with a nullish `b`, parsed against an
input carrying a stray property, produces an output with exactly the keys
`a` and `b` (the stray key is dropped, the absent `b` is assigned). -/
theorem c9_object_output_keys_witness :
    ∃ env, (_object [("a", _str {}), ("b", (_num {}).nullish)] [] {}).safeParse
        (vObj [("a", vStr "x"), ("stray", vStr "y")]) = .ok env ∧
      env.success = true ∧
      (∃ l, env.data = vObj l ∧
        l.map Prod.fst = ["a", "b"]) := by
  refine ⟨_, rfl, rfl, ?_⟩
  have := c9_object_output_keys [("a", _str {}), ("b", (_num {}).nullish)] []
    {} (vObj [("a", vStr "x"), ("stray", vStr "y")]) _ (by decide) rfl rfl
  simpa using this

theorem parse_of_safeParse_success (n : Node) (v dt ev : JSValue)
    (h : n.safeParse v = .ok ⟨true, ev, dt⟩) : n.parse v = .ok dt := by
  simp [Node.parse, h, exceptOkBind]
  rfl

/-- The property loop succeeds outright when every entry's parser succeeds,
assigning each entry's data under its output key in order. -/
theorem parseObjGo_allOk
    (tpf : Node → JSValue → Except JSErr SafeParseReturnType)
    (root : String) (value : JSValue) (dataOf : PropEntry → JSValue) :
    ∀ (entries : List PropEntry) (inst errs : List (String × JSValue)),
    (∀ e ∈ entries, ∃ ev,
      tpf e.node (getObjectProperty value e.inputKey) = .ok ⟨true, ev, dataOf e⟩) →
    (inst.map Prod.fst ++ entries.map PropEntry.outputKey).Nodup →
    parseObjGo tpf root value entries inst errs false =
      .ok ⟨vObj (inst ++ entries.map (fun e => (e.outputKey, dataOf e))),
        false, vUndefined, false⟩ := by
  intro entries
  induction entries with
  | nil => intro inst errs _ _; rw [parseObjGo]; simp; rfl
  | cons e rest ih =>
    intro inst errs hstep hnd
    simp only [List.map_cons] at hnd
    obtain ⟨ev, he⟩ := hstep e (List.mem_cons_self _ _)
    rw [parseObjGo, he, exceptOkBind, if_pos rfl]
    have hfresh : e.outputKey ∉ inst.map Prod.fst := by
      intro hm
      exact (List.nodup_append.mp hnd).2.2 hm (List.mem_cons_self _ _)
    rw [mapSet_of_not_mem _ hfresh]
    rw [ih (inst ++ [(e.outputKey, dataOf e)]) errs
      (fun e' he' => hstep e' (List.mem_cons_of_mem _ he'))
      (by simpa [List.append_assoc] using hnd)]
    simp

theorem revKeyOf_eq_inputKeyOf (remap : List (String × String))
    (h7 : ∀ q ∈ remap, q.2 ≠ "") (k : String) :
    revKeyOf remap k = inputKeyOf remap k := by
  rw [revKeyOf, inputKeyOf]
  cases hl : alistLookup remap k with
  | none => rfl
  | some v =>
    have := h7 _ (alistLookup_mem hl)
    simp only [Option.getD_some]
    rw [if_pos this]

theorem buildRevShape_eq (shape : List (String × Node))
    (remap : List (String × String))
    (h7 : ∀ q ∈ remap, q.2 ≠ "")
    (h2 : (shape.map (fun p => inputKeyOf remap p.1)).Nodup) :
    buildRevShape shape remap =
      shape.map (fun p => (inputKeyOf remap p.1, p.2)) := by
  rw [buildRevShape]
  rw [List.foldl_ext _ (fun acc p => mapSet acc (inputKeyOf remap p.1) p.2) _
    (by intro acc p _; rw [revKeyOf_eq_inputKeyOf remap h7])]
  have hfm : shape.foldl (fun acc p => mapSet acc (inputKeyOf remap p.1) p.2)
      ([] : List (String × Node)) =
      (shape.map (fun p => (inputKeyOf remap p.1, p.2))).foldl
        (fun acc p => mapSet acc p.1 p.2) [] := by
    rw [List.foldl_map]
  rw [hfm, foldl_mapSet_eq_append]
  · simp
  · simpa [List.map_map, Function.comp] using h2

theorem buildRevMap_eq (remap : List (String × String))
    (h7 : ∀ q ∈ remap, q.2 ≠ "")
    (h9 : (remap.map Prod.snd).Nodup) :
    buildRevMap remap = remap.map (fun q => (q.2, q.1)) := by
  rw [buildRevMap]
  rw [List.foldl_ext _ (fun acc p => mapSet acc p.2 p.1) _
    (by intro acc p hp; rw [if_pos (h7 p hp)])]
  have hfm : remap.foldl (fun acc p => mapSet acc p.2 p.1)
      ([] : List (String × String)) =
      (remap.map (fun q => (q.2, q.1))).foldl
        (fun acc p => mapSet acc p.1 p.2) [] := by
    rw [List.foldl_map]
  rw [hfm, foldl_mapSet_eq_append]
  · simp
  · simpa [List.map_map, Function.comp] using h9
theorem revInput_eq (shape : List (String × Node))
    (remap : List (String × String))
    (h2 : (shape.map (fun p => inputKeyOf remap p.1)).Nodup)
    (h6 : ∀ q ∈ remap, q.1 ∈ shape.map Prod.fst)
    (h8 : (remap.map Prod.fst).Nodup)
    (h9 : (remap.map Prod.snd).Nodup)
    (k : String) (hk : k ∈ shape.map Prod.fst) :
    inputKeyOf (remap.map (fun q => (q.2, q.1))) (inputKeyOf remap k) = k := by
  cases hl : alistLookup remap k with
  | some v =>
    have hmem : (k, v) ∈ remap := alistLookup_mem hl
    have hsw : alistLookup (remap.map (fun q => (q.2, q.1))) v = some k := by
      apply alistLookup_of_mem_nodup
      · simpa [List.map_map, Function.comp] using h9
      · exact List.mem_map.mpr ⟨(k, v), hmem, rfl⟩
    simp [inputKeyOf, hl, hsw]
  | none =>
    have hnone : alistLookup (remap.map (fun q => (q.2, q.1))) k = none := by
      apply alistLookup_eq_none
      intro hm
      simp only [List.map_map, Function.comp] at hm
      obtain ⟨q, hq, hqk⟩ := List.mem_map.mp hm
      simp only [Function.comp_apply] at hqk
      have hq1 : alistLookup remap q.1 = some q.2 :=
        alistLookup_of_mem_nodup h8 hq
      have hik : inputKeyOf remap q.1 = k := by simp [inputKeyOf, hq1, hqk]
      have hikk : inputKeyOf remap k = k := by simp [inputKeyOf, hl]
      obtain ⟨p1, hp1, hp1e⟩ := List.mem_map.mp (h6 q hq)
      obtain ⟨p2, hp2, hp2e⟩ := List.mem_map.mp hk
      have heq : inputKeyOf remap p1.1 = inputKeyOf remap p2.1 := by
        rw [hp1e, hp2e, hik, hikk]
      have hpe := List.inj_on_of_nodup_map h2 hp1 hp2 heq
      have hq1k : q.1 = k := by rw [← hp1e, ← hp2e, hpe]
      rw [hq1k] at hq1
      rw [hq1] at hl
      cases hl
    simp [inputKeyOf, hl, hnone]

/-- C1 (amended): round-trip holds for a flat configuration: declared keys
and remapped input keys are plain (dot-free) and duplicate-free, every remap
entry names a declared key with a truthy (nonempty) target, remap sources
and targets are duplicate-free, and every child accepts its value unchanged
and has no reverse type of its own (a non-object child).  Then the forward
parse of the matching raw input succeeds and the lazily built reverse type
parses the result back to exactly the original raw input. -/
theorem c1_flat_remap_roundtrip (shape : List (String × Node))
    (remap : List (String × String)) (vals : String → JSValue)
    (h1 : (shape.map Prod.fst).Nodup)
    (h2 : (shape.map (fun p => inputKeyOf remap p.1)).Nodup)
    (h3 : ∀ p ∈ shape,
      splitPath (inputKeyOf remap p.1) = [inputKeyOf remap p.1])
    (h3' : ∀ p ∈ shape, splitPath p.1 = [p.1])
    (h4 : ∀ p ∈ shape,
      p.2.safeParse (vals p.1) = .ok ⟨true, vUndefined, vals p.1⟩)
    (h5 : ∀ p ∈ shape, p.2.reverseType = none)
    (h6 : ∀ q ∈ remap, q.1 ∈ shape.map Prod.fst)
    (h7 : ∀ q ∈ remap, q.2 ≠ "")
    (h8 : (remap.map Prod.fst).Nodup)
    (h9 : (remap.map Prod.snd).Nodup) :
    ∃ rev out,
      (_object shape remap {}).reverseType = some rev ∧
      (_object shape remap {}).parse
        (vObj (shape.map (fun p => (inputKeyOf remap p.1, vals p.1)))) =
        .ok out ∧
      rev.parse out =
        .ok (vObj (shape.map (fun p => (inputKeyOf remap p.1, vals p.1)))) := by
  -- abbreviations
  have hrawkeys :
      ((shape.map (fun p => (inputKeyOf remap p.1, vals p.1))).map
        Prod.fst).Nodup := by
    simpa [List.map_map, Function.comp] using h2
  have houtkeys :
      ((shape.map (fun p => (p.1, vals p.1))).map Prod.fst).Nodup := by
    simpa [List.map_map, Function.comp] using h1
  -- forward parse
  have hfwd0 : (_object shape remap {}).safeParse
      (vObj (shape.map (fun p => (inputKeyOf remap p.1, vals p.1)))) =
      (parseObjGo safeParseH objRoot
        (vObj (shape.map (fun p => (inputKeyOf remap p.1, vals p.1))))
        (createPropMapFunc shape remap) [] [] false) >>= fun r =>
          pure (mkEnvelope r) := rfl
  have hstepF : ∀ e ∈ createPropMapFunc shape remap, ∃ ev,
      safeParseH e.node (getObjectProperty
        (vObj (shape.map (fun p => (inputKeyOf remap p.1, vals p.1))))
        e.inputKey) = .ok ⟨true, ev, vals e.outputKey⟩ := by
    intro e hemem
    obtain ⟨p, hp, rfl⟩ := List.mem_map.mp hemem
    have hlk : getObjectProperty
        (vObj (shape.map (fun p => (inputKeyOf remap p.1, vals p.1))))
        (inputKeyOf remap p.1) = vals p.1 := by
      rw [getObjectProperty_plain _ _ (h3 p hp)]
      rw [alistLookup_of_mem_nodup hrawkeys
        (List.mem_map.mpr ⟨p, hp, rfl⟩)]
      rfl
    exact ⟨vUndefined, by rw [safeParseH, hlk]; exact h4 p hp⟩
  have hfwd := parseObjGo_allOk safeParseH objRoot
    (vObj (shape.map (fun p => (inputKeyOf remap p.1, vals p.1))))
    (fun e => vals e.outputKey)
    (createPropMapFunc shape remap) [] [] hstepF
    (by simpa [createPropMapFunc, List.map_map, Function.comp] using h1)
  have hout : (_object shape remap {}).safeParse
      (vObj (shape.map (fun p => (inputKeyOf remap p.1, vals p.1)))) =
      .ok ⟨true, vUndefined,
        vObj (shape.map (fun p => (p.1, vals p.1)))⟩ := by
    rw [hfwd0, hfwd, exceptOkBind]
    simp only [mkEnvelope, createPropMapFunc, List.map_map,
      Function.comp_def, List.nil_append, if_neg]
    rfl
  have hparseF := parse_of_safeParse_success _ _ _ _ hout
  -- reverse shape and property map
  have hrs := buildRevShape_eq shape remap h7 h2
  have hrm := buildRevMap_eq remap h7 h9
  -- reverse parse
  refine ⟨_, vObj (shape.map (fun p => (p.1, vals p.1))), rfl, hparseF, ?_⟩
  have hrev1 :
      (createType (mergeTypeDefRequiredParams objectConstraint
          { ({} : PartrialTypeDef) with coerce := false } none)
        (some (createParseObject
          (fun _ => createPropMapFunc (buildRevShape shape remap)
            (buildRevMap remap))
          safeParseReverse objRoot))).safeParse
        (vObj (shape.map (fun p => (p.1, vals p.1)))) =
      (parseObjGo safeParseReverse objRoot
        (vObj (shape.map (fun p => (p.1, vals p.1))))
        (createPropMapFunc (buildRevShape shape remap) (buildRevMap remap))
        [] [] false) >>= fun r => pure (mkEnvelope r) := rfl
  have hstepR : ∀ e ∈ createPropMapFunc (buildRevShape shape remap)
      (buildRevMap remap), ∃ ev,
      safeParseReverse e.node (getObjectProperty
        (vObj (shape.map (fun p => (p.1, vals p.1)))) e.inputKey) =
      .ok ⟨true, ev, getObjectProperty
        (vObj (shape.map (fun p => (p.1, vals p.1)))) e.inputKey⟩ := by
    intro e hemem
    rw [createPropMapFunc, hrs] at hemem
    obtain ⟨p', hp', rfl⟩ := List.mem_map.mp hemem
    obtain ⟨p, hp, rfl⟩ := List.mem_map.mp hp'
    refine ⟨errsToJS ["reverse type definition not provided"], ?_⟩
    simp only [safeParseReverse, h5 p hp]
    rfl
  have hrev := parseObjGo_allOk safeParseReverse objRoot
    (vObj (shape.map (fun p => (p.1, vals p.1))))
    (fun e => getObjectProperty
      (vObj (shape.map (fun p => (p.1, vals p.1)))) e.inputKey)
    (createPropMapFunc (buildRevShape shape remap) (buildRevMap remap))
    [] [] hstepR
    (by rw [createPropMapFunc, hrs]
        simpa [List.map_map, Function.comp] using h2)
  have hdata : (createPropMapFunc (buildRevShape shape remap)
      (buildRevMap remap)).map (fun e => (e.outputKey,
        getObjectProperty (vObj (shape.map (fun p => (p.1, vals p.1))))
          e.inputKey)) =
      shape.map (fun p => (inputKeyOf remap p.1, vals p.1)) := by
    rw [createPropMapFunc, hrs, hrm]
    rw [List.map_map, List.map_map]
    apply List.map_congr_left
    intro p hp
    have hki : inputKeyOf (remap.map (fun q => (q.2, q.1)))
        (inputKeyOf remap p.1) = p.1 :=
      revInput_eq shape remap h2 h6 h8 h9 p.1
        (List.mem_map.mpr ⟨p, hp, rfl⟩)
    simp only [Function.comp]
    rw [hki]
    rw [getObjectProperty_plain _ _ (h3' p hp)]
    rw [alistLookup_of_mem_nodup houtkeys (List.mem_map.mpr ⟨p, hp, rfl⟩)]
    rfl
  have houtR : (createType (mergeTypeDefRequiredParams objectConstraint
      { ({} : PartrialTypeDef) with coerce := false } none)
      (some (createParseObject
        (fun _ => createPropMapFunc (buildRevShape shape remap)
          (buildRevMap remap))
        safeParseReverse objRoot))).safeParse
      (vObj (shape.map (fun p => (p.1, vals p.1)))) =
      .ok ⟨true, vUndefined,
        vObj (shape.map (fun p => (inputKeyOf remap p.1, vals p.1)))⟩ := by
    rw [hrev1, hrev, exceptOkBind]
    simp only [mkEnvelope, List.nil_append, hdata, if_neg]
    rfl
  exact parse_of_safeParse_success _ _ _ _ houtR
/-- C1 (counterexample): with the dotted remap `{email: 'address.email'}` —
a remap form the engine supports and the spec itself exercises — the forward
parse reads the nested value, but the reverse shape's output key is the
literal string `address.email`, so `reverseType.parse(schema.parse(raw))`
yields a flat `{'address.email': …}` object, not the original nested raw
input. -/
theorem c1_dotted_remap_counterexample :
    (_object [("email", _str {})] [("email", "address.email")] {}).parse
      (vObj [("address", vObj [("email", vStr "x@y.z")])]) =
      .ok (vObj [("email", vStr "x@y.z")]) ∧
    (∃ rev,
      (_object [("email", _str {})] [("email", "address.email")]
        {}).reverseType = some rev ∧
      rev.parse (vObj [("email", vStr "x@y.z")]) =
        .ok (vObj [("address.email", vStr "x@y.z")])) ∧
    vObj [("address.email", vStr "x@y.z")] ≠
      vObj [("address", vObj [("email", vStr "x@y.z")])] := by
  refine ⟨rfl, ⟨_, rfl, rfl⟩, ?_⟩
  intro h
  injection h with h
  injection h with h1 h2
  injection h1 with ha hb
  exact absurd ha (by decide)

/-- Witness for C1 (amended): shape `{firstname, email}` with the flat remap
`{email: 'mail_address'}` round-trips the matching raw object. -/
theorem c1_flat_remap_roundtrip_witness :
    ∃ rev out,
      (_object [("firstname", _str {}), ("email", _str {})]
        [("email", "mail_address")] {}).reverseType = some rev ∧
      (_object [("firstname", _str {}), ("email", _str {})]
        [("email", "mail_address")] {}).parse
        (vObj [("firstname", vStr "John"),
          ("mail_address", vStr "j@x.co")]) = .ok out ∧
      rev.parse out =
        .ok (vObj [("firstname", vStr "John"),
          ("mail_address", vStr "j@x.co")]) := by
  have h := c1_flat_remap_roundtrip
    [("firstname", _str {}), ("email", _str {})]
    [("email", "mail_address")]
    (fun k => if k == "firstname" then vStr "John" else vStr "j@x.co")
    (by decide) (by decide) (by decide) (by decide)
    (by intro p hp
        rcases List.mem_cons.mp hp with h | hp
        · subst h; rfl
        rcases List.mem_cons.mp hp with h | hp
        · subst h; rfl
        · simp at hp)
    (by intro p hp
        rcases List.mem_cons.mp hp with h | hp
        · subst h; rfl
        rcases List.mem_cons.mp hp with h | hp
        · subst h; rfl
        · simp at hp)
    (by decide) (by decide) (by decide) (by decide)
  exact h
end BuiltType
